import Mathlib

/-!
# Verification of `openapi2jsonschema` (openapi2jsonschema/command.py)

A shallow embedding of the schema-tree transformation pipeline of
`openapi2jsonschema/command.py`, together with theorems settling the claims
about it.

The generic YAML/JSON document tree that flows through every transform pass
is modelled by the mutually inductive types `Json` / `JsonElems` /
`JsonFields`: a Python `dict` is an insertion-ordered association list
(`JsonFields`), a Python `list` is `JsonElems`, and scalars are the remaining
constructors.  Each transform pass of the source file
(`additional_properties`, `replace_int_or_string`,
`allow_null_optional_fields`, `change_dict_values`) is translated
line-by-line; the Python fallback `except AttributeError: return data`
(which fires exactly when `data.iteritems()` is called on a non-dict)
becomes the catch-all non-`obj` branch, and exceptions other than
`AttributeError` (such as `TypeError` raised by `grand_parent["required"]`
on a list) are modelled with `Except String`.
-/

mutual
/-- A YAML/JSON document tree, as produced by `yaml.load` in the source:
mappings, sequences, strings, numbers, booleans and null. -/
inductive Json where
  | null
  | bool (b : Bool)
  | num (n : Int)
  | str (s : String)
  | arr (elems : JsonElems)
  | obj (fields : JsonFields)

/-- The elements of a sequence node. -/
inductive JsonElems where
  | nil
  | cons (hd : Json) (tl : JsonElems)

/-- The entries of a mapping node, in insertion order (Python dicts preserve
insertion order; keys are unique in any dict produced by `yaml.load`). -/
inductive JsonFields where
  | nil
  | cons (key : String) (val : Json) (tl : JsonFields)
end

mutual
/-- Structural equality test on trees (Python `==` on parsed YAML values). -/
def Json.beq : Json → Json → Bool
  | .null, .null => true
  | .bool a, .bool b => a == b
  | .num a, .num b => a == b
  | .str a, .str b => a == b
  | .arr a, .arr b => JsonElems.beq a b
  | .obj a, .obj b => JsonFields.beq a b
  | _, _ => false

def JsonElems.beq : JsonElems → JsonElems → Bool
  | .nil, .nil => true
  | .cons a as, .cons b bs => Json.beq a b && JsonElems.beq as bs
  | _, _ => false

def JsonFields.beq : JsonFields → JsonFields → Bool
  | .nil, .nil => true
  | .cons k a as, .cons k' b bs => k == k' && Json.beq a b && JsonFields.beq as bs
  | _, _ => false
end

mutual
theorem json_beq_iff : ∀ (a b : Json), (Json.beq a b = true) ↔ a = b
  | .null, b => by cases b <;> simp [Json.beq]
  | .bool x, b => by cases b <;> simp [Json.beq]
  | .num x, b => by cases b <;> simp [Json.beq]
  | .str x, b => by cases b <;> simp [Json.beq]
  | .arr xs, b => by cases b <;> simp [Json.beq, jsonElems_beq_iff xs]
  | .obj fs, b => by cases b <;> simp [Json.beq, jsonFields_beq_iff fs]

theorem jsonElems_beq_iff : ∀ (a b : JsonElems), (JsonElems.beq a b = true) ↔ a = b
  | .nil, b => by cases b <;> simp [JsonElems.beq]
  | .cons x xs, b => by
      cases b <;> simp [JsonElems.beq, json_beq_iff x, jsonElems_beq_iff xs]

theorem jsonFields_beq_iff : ∀ (a b : JsonFields), (JsonFields.beq a b = true) ↔ a = b
  | .nil, b => by cases b <;> simp [JsonFields.beq]
  | .cons k x xs, b => by
      cases b <;> simp [JsonFields.beq, json_beq_iff x, jsonFields_beq_iff xs, and_assoc]
end

instance : DecidableEq Json := fun a b => decidable_of_iff _ (json_beq_iff a b)

instance : DecidableEq JsonElems := fun a b => decidable_of_iff _ (jsonElems_beq_iff a b)

instance : DecidableEq JsonFields := fun a b => decidable_of_iff _ (jsonFields_beq_iff a b)

/-- Concatenation of mapping-entry lists. -/
def JsonFields.append : JsonFields → JsonFields → JsonFields
  | .nil, l => l
  | .cons k v rest, l => .cons k v (JsonFields.append rest l)

/-- Python `k in d` for a dict `d` with string keys. -/
def hasKey (k : String) : JsonFields → Bool
  | .nil => false
  | .cons k' _ rest => k' == k || hasKey k rest

/-- Python `d[k]` for a dict `d`: the value stored under `k`, if any
(first match; dicts produced by the YAML parser have unique keys). -/
def lookupF (k : String) : JsonFields → Option Json
  | .nil => none
  | .cons k' v rest => if k' == k then some v else lookupF k rest

/-- Python `d[k] = v` on a dict: overwrite in place if the key exists
(keeping its position), otherwise append a new entry at the end. -/
def setKey : JsonFields → String → Json → JsonFields
  | .nil, k, v => .cons k v .nil
  | .cons k' v' rest, k, v =>
      if k' == k then .cons k v rest else .cons k' v' (setKey rest k v)

/-- Entry membership in a mapping-entry list. -/
def hasEntry (k : String) (v : Json) : JsonFields → Bool
  | .nil => false
  | .cons k' v' rest => (k' == k && v' == v) || hasEntry k v rest

/-- Element membership in a sequence (Python `x in lst`, which uses `==`). -/
def JsonElems.contains (x : Json) : JsonElems → Bool
  | .nil => false
  | .cons y rest => y == x || JsonElems.contains x rest

/-- Python truthiness of a parsed YAML value (`bool(v)`). -/
def truthy : Json → Bool
  | .null => false
  | .bool b => b
  | .num n => n != 0
  | .str s => s != ""
  | .arr es => !(es == .nil)
  | .obj fs => !(fs == .nil)

/-!
Python string primitives, re-implemented over `List Char` so that every
definition in this file is kernel-computable.  They model CPython semantics:
`<` compares code points lexicographically, `str.replace` replaces all
non-overlapping occurrences left to right, `str.split('.')` splits on every
separator (empty string gives `[""]`), `str.lower()` lowercases (ASCII
range; the titles this program handles are ASCII), `str.startswith` tests a
literal prefix.
-/

/-- Lexicographic code-point comparison (Python `a < b` on strings). -/
def charListLt : List Char → List Char → Bool
  | [], [] => false
  | [], _ :: _ => true
  | _ :: _, [] => false
  | a :: as, b :: bs => a < b || (a == b && charListLt as bs)

/-- Python `a < b` on strings. -/
def pyLt (a b : String) : Bool := charListLt a.data b.data

/-- Python `c.lower()` for a single character (ASCII range). -/
def pyCharLower (c : Char) : Char :=
  if 'A' ≤ c && c ≤ 'Z' then Char.ofNat (c.toNat + 32) else c

/-- Python `s.lower()` (ASCII range). -/
def pyLower (s : String) : String := ⟨s.data.map pyCharLower⟩

/-- Split a character list at every occurrence of `sep`. -/
def splitChar (sep : Char) : List Char → List (List Char)
  | [] => [[]]
  | c :: cs =>
      let r := splitChar sep cs
      if c == sep then [] :: r
      else
        match r with
        | g :: gs => (c :: g) :: gs
        | [] => [[c]]

/-- Python `s.split('.')`. -/
def pySplitDot (s : String) : List String := (splitChar '.' s.data).map (fun cs => ⟨cs⟩)

/-- Replace every non-overlapping occurrence of `needle` (non-empty in all
uses below), scanning left to right; the `Nat` argument is a fuel bound fixed
to the input length, which the scan never exhausts. -/
def replaceAux (needle repl : List Char) : Nat → List Char → List Char
  | _, [] => []
  | 0, l => l
  | Nat.succ fuel, c :: cs =>
      if needle.isPrefixOf (c :: cs) then
        repl ++ replaceAux needle repl fuel ((c :: cs).drop needle.length)
      else c :: replaceAux needle repl fuel cs

/-- Python `s.replace(needle, repl)` (for non-empty `needle`). -/
def pyReplace (s needle repl : String) : String :=
  ⟨replaceAux needle.data repl.data s.data.length s.data⟩

/-- Python `s.startswith(pre)`. -/
def pyStartsWith (s pre : String) : Bool := pre.data.isPrefixOf s.data

/-- Python `t in s` for strings: substring test. -/
def subIn (needle : List Char) : List Char → Bool
  | [] => false
  | c :: cs => needle.isPrefixOf (c :: cs) || subIn needle cs

/-- Python `t in s` for strings. -/
def strContains (hay needle : String) : Bool :=
  needle == "" || subIn needle.data hay.data

/-- Python `x in c` for a container `c`; raises `TypeError` when `c` is not a
container (modelled as `.error`). For dicts it tests keys, for lists it tests
elements, for strings it is the substring test. -/
def pyIn (x : Json) (c : Json) : Except String Bool :=
  match c with
  | .obj fs => .ok (match x with | .str s => hasKey s fs | _ => false)
  | .arr es => .ok (JsonElems.contains x es)
  | .str s =>
      match x with
      | .str t => .ok (strContains s t)
      | _ => .error "TypeError"
  | _ => .error "TypeError"

/-- Python `c[x]` subscription; raises `TypeError`/`KeyError`/`IndexError`
outside the defined cases. Sequence indexing is only ever reached with
non-integer subscripts in the source, so it is modelled as `TypeError`. -/
def pySubscript (c : Json) (x : Json) : Except String Json :=
  match c, x with
  | .obj fs, .str s =>
      match lookupF s fs with
      | some v => .ok v
      | none => .error "KeyError"
  | .obj _, _ => .error "KeyError"
  | .arr _, .num _ => .error "IndexError"
  | _, _ => .error "TypeError"

/-- Python `c[k] = v` assignment for a string key: only dicts support it. -/
def pySetItem (c : Json) (k : String) (v : Json) : Except String Json :=
  match c with
  | .obj fs => .ok (.obj (setKey fs k v))
  | _ => .error "TypeError"

/-- Build a sequence node's elements from a Lean list (notation helper). -/
def JsonElems.ofList : List Json → JsonElems
  | [] => .nil
  | x :: xs => .cons x (JsonElems.ofList xs)

/-- Build a mapping node's entries from a Lean list (notation helper). -/
def JsonFields.ofList : List (String × Json) → JsonFields
  | [] => .nil
  | (k, v) :: xs => .cons k v (JsonFields.ofList xs)

/-!
## The Strictness Pass — `additional_properties` (command.py lines 30-46)

```python
def additional_properties(data):
    new = {}
    try:
        for k, v in data.iteritems():
            new_v = v
            if isinstance(v, dict):
                if "properties" in v:
                    if "additionalProperties" not in v:
                        v["additionalProperties"] = False
                new_v = additional_properties(v)
            else:
                new_v = v
            new[k] = new_v
        return new
    except AttributeError:
        return data
```

For a dict value `v` the source first injects `additionalProperties: False`
in place (Python appends a new dict key at the end) and then recurses.  The
injected entry is a Boolean scalar, which the recursive call maps to itself,
so injecting-then-recursing equals recursing-then-appending; the definition
below uses the latter order (which is structurally recursive), and the lemma
`additional_properties_inject` proves it equal to the source's order.
Values that are not dicts — including lists — are passed through unchanged:
the loop has no `isinstance(v, list)` branch in this pass.
-/

/-- The in-place mutation `v["additionalProperties"] = False` performed on a
dict value `v` that has `properties` but no `additionalProperties` yet
(command.py lines 37-39). -/
def inject_additional (gs : JsonFields) : JsonFields :=
  if hasKey "properties" gs && !(hasKey "additionalProperties" gs)
  then gs.append (.cons "additionalProperties" (.bool false) .nil)
  else gs

/-- The entry appended by `inject_additional`, when the condition holds. -/
def injTail (gs : JsonFields) : JsonFields :=
  if hasKey "properties" gs && !(hasKey "additionalProperties" gs)
  then .cons "additionalProperties" (.bool false) .nil
  else .nil

mutual
/-- `additional_properties(data)`: the value returned by the pass. -/
def additional_properties : Json → Json
  | .obj fields => .obj (additional_properties_fields fields)
  | d => d

/-- One loop iteration per entry (`for k, v in data.iteritems(): ... new[k] = new_v`). -/
def additional_properties_fields : JsonFields → JsonFields
  | .nil => .nil
  | .cons k v rest =>
      .cons k (additional_properties_value v) (additional_properties_fields rest)

/-- The `new_v` computed for a single value `v`. -/
def additional_properties_value : Json → Json
  | .obj gs => .obj ((additional_properties_fields gs).append (injTail gs))
  | v => v
end

/-!
The state of the pass's *argument* after the call.  The source mutates its
input: line 39 assigns `v["additionalProperties"] = False` into the dict
value `v` of the input tree, and the recursive call `additional_properties(v)`
performs the same assignments deeper inside the input.  The caller's tree is
therefore changed by the call.  `additional_properties_argAfter` describes
the argument after the call returns: every dict value (recursively, through
dict values only) that had `properties` and lacked `additionalProperties` has
gained a trailing `additionalProperties: False` entry.
-/

mutual
/-- The argument `data` as it stands *after* `additional_properties(data)`
returns (the in-place `v["additionalProperties"] = False` assignments of
command.py line 39, applied at every level the recursion reaches). -/
def additional_properties_argAfter : Json → Json
  | .obj fields => .obj (additional_properties_argAfter_fields fields)
  | d => d

def additional_properties_argAfter_fields : JsonFields → JsonFields
  | .nil => .nil
  | .cons k v rest =>
      .cons k (additional_properties_argAfter_value v)
        (additional_properties_argAfter_fields rest)

def additional_properties_argAfter_value : Json → Json
  | .obj gs => .obj ((additional_properties_argAfter_fields gs).append (injTail gs))
  | v => v
end

/-!
## The Int-or-String Normalizer — `replace_int_or_string` (command.py lines 49-71)

```python
def replace_int_or_string(data):
    new = {}
    try:
        for k, v in data.iteritems():
            new_v = v
            if isinstance(v, dict):
                if 'format' in v and v['format'] == 'int-or-string':
                    new_v = {'oneOf': [
                        {'type': 'string'},
                        {'type': 'integer'},
                    ]}
                else:
                    new_v = replace_int_or_string(v)
            elif isinstance(v, list):
                new_v = list()
                for x in v:
                    new_v.append(replace_int_or_string(x))
            else:
                new_v = v
            new[k] = new_v
        return new
    except AttributeError:
        return data
```
-/

/-- The replacement node `{'oneOf': [{'type': 'string'}, {'type': 'integer'}]}`. -/
def intOrStringNode : Json :=
  .obj (.ofList [("oneOf", .arr (.ofList
    [.obj (.ofList [("type", Json.str "string")]),
     .obj (.ofList [("type", Json.str "integer")])]))])

mutual
def replace_int_or_string : Json → Json
  | .obj fields => .obj (replace_int_or_string_fields fields)
  | d => d

def replace_int_or_string_fields : JsonFields → JsonFields
  | .nil => .nil
  | .cons k v rest =>
      .cons k (replace_int_or_string_value v) (replace_int_or_string_fields rest)

def replace_int_or_string_value : Json → Json
  | .obj gs =>
      if (match lookupF "format" gs with
          | some f => f == Json.str "int-or-string"
          | none => false)
      then intOrStringNode
      else .obj (replace_int_or_string_fields gs)
  | .arr xs => .arr (replace_int_or_string_elems xs)
  | v => v

def replace_int_or_string_elems : JsonElems → JsonElems
  | .nil => .nil
  | .cons x xs => .cons (replace_int_or_string x) (replace_int_or_string_elems xs)
end

/-!
## The Nullable-Field Expander — `allow_null_optional_fields` (command.py lines 74-97)

```python
def allow_null_optional_fields(data, parent=None, grand_parent=None, key=None):
    new = {}
    try:
        for k, v in data.iteritems():
            new_v = v
            if isinstance(v, dict):
                new_v = allow_null_optional_fields(v, data, parent, k)
            elif isinstance(v, list):
                new_v = list()
                for x in v:
                    new_v.append(allow_null_optional_fields(x, v, parent, k))
            elif isinstance(v, basestring):
                is_array = k == "type" and v == "array"
                is_string = k == "type" and v == "string"
                has_required_fields = grand_parent and "required" in grand_parent
                is_required_field = has_required_fields and key in grand_parent["required"]
                if is_array and not is_required_field:
                    new_v = ["array", "null"]
                elif is_string and not is_required_field:
                    new_v = ["string", "null"]
            new[k] = new_v
        return new
    except AttributeError:
        return data
```

Only `AttributeError` is caught (raised exactly when `data.iteritems()` is
called on a non-dict); a `TypeError` raised by `"required" in grand_parent`
or `grand_parent["required"]` (for instance when `grand_parent` is a list
that contains the string `"required"`) propagates out of every level of the
recursion, so the pass as a whole is fallible and is modelled in
`Except String`.  Python's short-circuit `and` is modelled faithfully: the
`in`/subscript expressions are only evaluated when the left operands are
truthy.  `parent`, `grand_parent` and `key` default to `None`
(`Json.null`). -/

/-- The `new_v` computed for a string leaf `v` under key `k` (command.py
lines 85-93). -/
def allow_null_leaf (k s : String) (gp key : Json) : Except String Json :=
  let is_array := k == "type" && s == "array"
  let is_string := k == "type" && s == "string"
  -- has_required_fields = grand_parent and "required" in grand_parent
  -- is_required_field = has_required_fields and key in grand_parent["required"]
  let required_check : Except String Bool :=
    if truthy gp then
      match pyIn (.str "required") gp with
      | .error e => .error e
      | .ok false => .ok false
      | .ok true =>
          match pySubscript gp (.str "required") with
          | .error e => .error e
          | .ok req => pyIn key req
    else .ok false
  required_check.map (fun is_required_field =>
    if is_array && !is_required_field then
      .arr (.ofList [Json.str "array", Json.str "null"])
    else if is_string && !is_required_field then
      .arr (.ofList [Json.str "string", Json.str "null"])
    else .str s)

mutual
def allow_null_optional_fields (data par gp key : Json) : Except String Json :=
  match data with
  | .obj fields =>
      match allow_null_optional_fields_fields fields (.obj fields) par gp key with
      | .ok fs => .ok (.obj fs)
      | .error e => .error e
  | d => .ok d

def allow_null_optional_fields_fields :
    JsonFields → Json → Json → Json → Json → Except String JsonFields
  | .nil, _, _, _, _ => .ok .nil
  | .cons k v rest, data, par, gp, key =>
      match allow_null_optional_fields_value k v data par gp key with
      | .error e => .error e
      | .ok v' =>
          match allow_null_optional_fields_fields rest data par gp key with
          | .error e => .error e
          | .ok rest' => .ok (.cons k v' rest')
termination_by structural l _ _ _ _ => l

def allow_null_optional_fields_value (k : String) (v data par gp key : Json) :
    Except String Json :=
  match v with
  | .obj gs =>
      -- allow_null_optional_fields(v, data, parent, k)
      match allow_null_optional_fields_fields gs (.obj gs) data par (.str k) with
      | .ok fs => .ok (.obj fs)
      | .error e => .error e
  | .arr xs =>
      -- [allow_null_optional_fields(x, v, parent, k) for x in v]
      match allow_null_optional_fields_elems xs (.arr xs) par (.str k) with
      | .ok ys => .ok (.arr ys)
      | .error e => .error e
  | .str s => allow_null_leaf k s gp key
  | v => .ok v
termination_by structural v

def allow_null_optional_fields_elems :
    JsonElems → Json → Json → Json → Except String JsonElems
  | .nil, _, _, _ => .ok .nil
  | .cons x xs, lst, par, key =>
      match allow_null_optional_fields_inner x lst par key with
      | .error e => .error e
      | .ok x' =>
          match allow_null_optional_fields_elems xs lst par key with
          | .error e => .error e
          | .ok xs' => .ok (.cons x' xs')
termination_by structural l _ _ _ => l

/-- A recursive call `allow_null_optional_fields(x, ...)` on a child `x`
(identical body to the top-level entry point, repeated so that the mutual
recursion stays structural). -/
def allow_null_optional_fields_inner (data par gp key : Json) : Except String Json :=
  match data with
  | .obj fields =>
      match allow_null_optional_fields_fields fields (.obj fields) par gp key with
      | .ok fs => .ok (.obj fs)
      | .error e => .error e
  | d => .ok d
end

/-!
## The Reference Rewriter — `change_dict_values` (command.py lines 100-122)

```python
def change_dict_values(d, prefix, version):
    new = {}
    try:
        for k, v in d.iteritems():
            new_v = v
            if isinstance(v, dict):
                new_v = change_dict_values(v, prefix, version)
            elif isinstance(v, list):
                new_v = list()
                for x in v:
                    new_v.append(change_dict_values(x, prefix, version))
            elif isinstance(v, basestring):
                if k == "$ref":
                    if version < '3':
                        new_v = "%s%s" % (prefix, v)
                    else:
                        new_v = v.replace("#/components/schemas/", "") + ".json"
            else:
                new_v = v
            new[k] = new_v
        return new
    except AttributeError:
        return d
```

Note `str.replace` replaces *every* occurrence of the pattern, not only a
leading one, and `version < '3'` is Python's lexicographic string
comparison, both mirrored exactly. -/

mutual
def change_dict_values (d : Json) (pfx version : String) : Json :=
  match d with
  | .obj fields => .obj (change_dict_values_fields fields pfx version)
  | _ => d

def change_dict_values_fields : JsonFields → String → String → JsonFields
  | .nil, _, _ => .nil
  | .cons k v rest, pfx, version =>
      .cons k (change_dict_values_value k v pfx version)
        (change_dict_values_fields rest pfx version)

def change_dict_values_value (k : String) (v : Json) (pfx version : String) : Json :=
  match v with
  | .obj gs => .obj (change_dict_values_fields gs pfx version)
  | .arr xs => .arr (change_dict_values_elems xs pfx version)
  | .str s =>
      if k == "$ref" then
        if pyLt version "3" then .str (pfx ++ s)
        else .str ((pyReplace s "#/components/schemas/" "") ++ ".json")
      else .str s
  | _ => v

def change_dict_values_elems : JsonElems → String → String → JsonElems
  | .nil, _, _ => .nil
  | .cons x xs, pfx, version =>
      .cons (change_dict_values x pfx version) (change_dict_values_elems xs pfx version)
end

deriving instance DecidableEq for Except

/-!
## Naming utilities (command.py lines 137-145)

```python
def group_version_kind(title):
    return title.lower().split('.')[-3:]

def output_filename(group, version, kind):
    if group == "core":
        return "%s-%s.json" % (kind, version)
    else:
        return "%s-%s-%s.json" % (kind, group, version)
```

Note that `group_version_kind` lowercases the whole title before splitting,
and `lst[-3:]` takes the last three elements (the whole list when it has
fewer than three). -/

def group_version_kind (title : String) : List String :=
  let parts := pySplitDot (pyLower title)
  parts.drop (parts.length - 3)

def output_filename (group version kind : String) : String :=
  if group == "core" then kind ++ "-" ++ version ++ ".json"
  else kind ++ "-" ++ group ++ "-" ++ version ++ ".json"

/-!
## The per-type emitter (command.py lines 205-258)

```python
for title in components:
    if title.startswith('io.k8s.kubernetes.pkg.apis'):
        continue
    group, api_version, kind = group_version_kind(title)
    if group == "api":
        continue
    specification = components[title]
    specification["$schema"] = "http://json-schema.org/schema#"
    specification.setdefault("type", "object")

    try:
        ...steps 3-8...
    except Exception as e:
        error("An error occured processing %s: %s" % (kind, e))
```

The `try` block starts only *after* the `$schema`/`type` assignments; an
exception raised there (for instance a `TypeError` because the declared
type's node is not a mapping) propagates out of the `for` loop and aborts
the whole run, as does the `ValueError` raised by the tuple unpacking
`group, api_version, kind = ...` when the lowered title has fewer than
three dot-separated segments. -/

/-- The per-type outcome of the emitter loop: skipped without output,
written to a file, or failed inside the `try` block (reported, no file). -/
inductive TypeResult where
  | skipped
  | written (filename : String) (content : Json)
  | failed (kind : String)
deriving DecidableEq

/-- What the emitter loop does with one title, ignoring the file contents:
skip it, emit a file with the computed name, or crash the run
(`ValueError` from unpacking fewer than three segments). -/
inductive TitleOutcome where
  | skipped
  | emitted (filename : String)
  | crash (msg : String)
deriving DecidableEq

def title_outcome (title : String) : TitleOutcome :=
  if pyStartsWith title "io.k8s.kubernetes.pkg.apis" then .skipped
  else
    match group_version_kind title with
    | [g, v, k] => if g == "api" then .skipped else .emitted (output_filename g v k)
    | _ => .crash "ValueError"

/-- `KINDS_WITH_JSONSCHEMA` (command.py lines 13-24), including the
duplicated `customresourcedefinitionspec` entry. -/
def KINDS_WITH_JSONSCHEMA : List String :=
  ["jsonschemaprops",
   "jsonschemapropsorarray",
   "customresourcevalidation",
   "customresourcedefinition",
   "customresourcedefinitionspec",
   "customresourcedefinitionlist",
   "customresourcedefinitionspec",
   "customresourcedefinitionversion",
   "jsonschemapropsorstringarray",
   "jsonschemapropsorbool"]

/-- The command-line configuration relevant to the emitter. -/
structure EmitCfg where
  pfx : String
  version : String
  stand_alone : Bool
  kubernetes : Bool
  strict : Bool

/-- Lines 212-213, executed *before* the `try` block:
`specification["$schema"] = "http://json-schema.org/schema#"` followed by
`specification.setdefault("type", "object")`.  Item assignment on a
non-dict raises `TypeError`. -/
def set_schema_defaults (spec : Json) : Except String Json :=
  match spec with
  | .obj fs =>
      let f1 := setKey fs "$schema" (.str "http://json-schema.org/schema#")
      let f2 := if hasKey "type" f1 then f1
                else f1.append (.cons "type" (.str "object") .nil)
      .ok (.obj f2)
  | _ => .error "TypeError"

/-- Lines 235-243: the `if "properties" in specification:` block of
stand-alone mode (strict pass, then the two kubernetes passes), re-reading
`specification["properties"]` after each assignment just as the source
does. -/
def step_properties (cfg : EmitCfg) (s : Json) : Except String Json :=
  match pyIn (.str "properties") s with
  | .error e => .error e
  | .ok false => .ok s
  | .ok true =>
      let afterStrict : Except String Json :=
        if cfg.strict then
          match pySubscript s (.str "properties") with
          | .error e => .error e
          | .ok props => pySetItem s "properties" (additional_properties props)
        else .ok s
      match afterStrict with
      | .error e => .error e
      | .ok s' =>
          if cfg.kubernetes then
            match pySubscript s' (.str "properties") with
            | .error e => .error e
            | .ok props =>
                let u1 := replace_int_or_string props
                match allow_null_optional_fields u1 .null .null .null with
                | .error e => .error e
                | .ok u2 => pySetItem s' "properties" u2
          else .ok s'

/-- The body of the per-type `try` block (command.py lines 215-250, steps
3-7): reference rewriting, the unsupported-kind check, dereferencing plus
the stand-alone passes, or the pointer stub.  `JsonRef.replace_refs` is an
external library (the `jsonref` package), so dereferencing is an oracle
parameter `deref`; every result it may produce, including failure, is
covered by the theorems below. -/
def process_type_body (cfg : EmitCfg) (deref : Json → Except String Json)
    (title kind : String) (spec0 : Json) : Except String Json :=
  let spec1 := change_dict_values spec0 cfg.pfx cfg.version
  if cfg.kubernetes && cfg.stand_alone && KINDS_WITH_JSONSCHEMA.contains kind then
    .error ("UnsupportedError: " ++ kind ++ " not currently supported")
  else if cfg.stand_alone then
    match deref spec1 with
    | .error e => .error e
    | .ok s2 =>
        match pyIn (.str "additionalProperties") s2 with
        | .error e => .error e
        | .ok false => step_properties cfg s2
        | .ok true =>
            match pySubscript s2 (.str "additionalProperties") with
            | .error e => .error e
            | .ok ap =>
                if truthy ap then
                  match pySetItem s2 "additionalProperties"
                      (change_dict_values ap cfg.pfx cfg.version) with
                  | .error e => .error e
                  | .ok s3 => step_properties cfg s3
                else step_properties cfg s2
  else
    match spec1 with
    | .obj fs =>
        match lookupF "$schema" fs with
        | none => .error "KeyError"
        | some sch =>
            match lookupF "type" fs with
            | none => .error "KeyError"
            | some ty =>
                .ok (.obj (.ofList
                  [("$schema", sch),
                   ("$ref", .str ("_definitions.json#/definitions/" ++ title)),
                   ("description", (lookupF "description" fs).getD .null),
                   ("type", ty)]))
    | _ => .error "TypeError"

/-- The emitter loop over all declared types, in declaration order.  The
result is the list of per-type outcomes for the processed prefix, plus
`some errorMessage` when an exception outside the per-type `try` block
aborted the loop at that point. -/
def processLoop (cfg : EmitCfg) (deref : Json → Except String Json) :
    List (String × Json) → List TypeResult × Option String
  | [] => ([], none)
  | (title, spec) :: rest =>
      if pyStartsWith title "io.k8s.kubernetes.pkg.apis" then
        let r := processLoop cfg deref rest
        (.skipped :: r.1, r.2)
      else
        match group_version_kind title with
        | [g, v, k] =>
            if g == "api" then
              let r := processLoop cfg deref rest
              (.skipped :: r.1, r.2)
            else
              match set_schema_defaults spec with
              | .error e => ([], some e)
              | .ok spec0 =>
                  let res := match process_type_body cfg deref title k spec0 with
                    | .ok content => TypeResult.written (output_filename g v k) content
                    | .error _ => TypeResult.failed k
                  let r := processLoop cfg deref rest
                  (res :: r.1, r.2)
        | _ => ([], some "ValueError")

/-- The emitter loop as a whole: the per-type results when it runs to
completion, or the error that aborted it. -/
def process_all (cfg : EmitCfg) (deref : Json → Except String Json)
    (types : List (String × Json)) : Except String (List TypeResult) :=
  match processLoop cfg deref types with
  | (rs, none) => .ok rs
  | (_, some e) => .error e

/-!
## The aggregate union file `all.json` (command.py lines 260-271)

```python
with open("%s/all.json" % output, 'w') as all_file:
    info("Generating schema for all types")
    contents = {"oneOf": []}
    for title in components:
        if version < '3':
            if stand_alone:
                contents["oneOf"].append({"$ref": "%s#/%s" % (prefix.replace('_definitions.json', output_filename(*group_version_kind(title))), title)})
            else:
                contents["oneOf"].append({"$ref": "%s#/definitions/%s" % (prefix, title)})
        else:
            contents["oneOf"].append({"$ref": (title.replace("#/components/schemas/", "") + ".json")})
    all_file.write(json.dumps(contents, indent=2))
```

Every title of `components` contributes one entry, in declaration order —
this loop has no skip conditions.  `output_filename(*group_version_kind(title))`
raises `TypeError` when the title has fewer than three segments (wrong
argument count). -/

/-- The `$ref` string appended to `contents["oneOf"]` for one title. -/
def all_json_entry (title pfx version : String) (stand_alone : Bool) :
    Except String String :=
  if pyLt version "3" then
    if stand_alone then
      match group_version_kind title with
      | [g, v, k] =>
          .ok ((pyReplace pfx "_definitions.json" (output_filename g v k)) ++ "#/" ++ title)
      | _ => .error "TypeError"
    else .ok (pfx ++ "#/definitions/" ++ title)
  else .ok ((pyReplace title "#/components/schemas/" "") ++ ".json")

/-- The `oneOf` list of `all.json`: one entry per declared title, in
declaration order. -/
def all_json_oneOf : List String → String → String → Bool → Except String (List String)
  | [], _, _, _ => .ok []
  | t :: ts, pfx, version, sa =>
      match all_json_entry t pfx version sa with
      | .error e => .error e
      | .ok x =>
          match all_json_oneOf ts pfx version sa with
          | .error e => .error e
          | .ok xs => .ok (x :: xs)

/-!
## File lifecycle of one run (command.py lines 179-274)

`run_files` projects the `default` command onto the set of files it leaves
in the output directory, starting from an empty output directory, after
`components` has been determined (for `version < '3'` the shared
definitions file is written before the loop; its contents are out of scope
here, only its existence matters).  `with open(...)` creates `all.json`
before its contents loop runs, so the file exists even if that loop raises.
Afterwards, `if stand_alone: os.remove("%s/_definitions.json" % output)`
deletes the shared definitions file, raising `FileNotFoundError`
(equivalently `OSError`) when no such file exists. -/

/-- The filenames written by the per-type loop. -/
def writtenFiles (rs : List TypeResult) : List String :=
  rs.filterMap (fun r => match r with | .written f _ => some f | _ => none)

/-- The files present in the output directory when the run ends, and the
uncaught exception that ended it, if any. -/
def run_files (cfg : EmitCfg) (deref : Json → Except String Json)
    (types : List (String × Json)) : List String × Option String :=
  let defs : List String := if pyLt cfg.version "3" then ["_definitions.json"] else []
  match processLoop cfg deref types with
  | (rs, some e) => (defs ++ writtenFiles rs, some e)
  | (rs, none) =>
      let files := defs ++ writtenFiles rs ++ ["all.json"]
      match all_json_oneOf (types.map Prod.fst) cfg.pfx cfg.version cfg.stand_alone with
      | .error e => (files, some e)
      | .ok _ =>
          if cfg.stand_alone then
            if "_definitions.json" ∈ files then
              (files.erase "_definitions.json", none)
            else (files, some "FileNotFoundError")
          else (files, none)

/-!
## Strictness invariant

`objValueStrict d` states the guarantee the Strictness Pass actually
establishes: every mapping reachable from `d` as the *value of a mapping
entry* (recursively, without passing through sequences) that contains the
key `properties` also contains the key `additionalProperties`.  It does not
constrain the root node, nor mappings inside sequences — the pass touches
neither. -/

mutual
def objValueStrict : Json → Bool
  | .obj fields => objValueStrict_fields fields
  | _ => true

def objValueStrict_fields : JsonFields → Bool
  | .nil => true
  | .cons _ v rest => objValueStrict_value v && objValueStrict_fields rest

def objValueStrict_value : Json → Bool
  | .obj gs =>
      (!(hasKey "properties" gs) || hasKey "additionalProperties" gs) &&
      objValueStrict_fields gs
  | _ => true
end

/-!
## Supporting lemmas: the Strictness Pass
-/

theorem JsonFields.append_nil : ∀ (l : JsonFields), l.append .nil = l
  | .nil => rfl
  | .cons k v rest => by simp [JsonFields.append, JsonFields.append_nil rest]

theorem hasKey_append : ∀ (a b : JsonFields) (k : String),
    hasKey k (a.append b) = (hasKey k a || hasKey k b)
  | .nil, b, k => rfl
  | .cons k' v rest, b, k => by
      simp [JsonFields.append, hasKey, hasKey_append rest b k, Bool.or_assoc]

/-- The pass does not change which keys a rebuilt mapping has, at its top
level. -/
theorem additional_properties_fields_hasKey :
    ∀ (gs : JsonFields) (k : String),
      hasKey k (additional_properties_fields gs) = hasKey k gs
  | .nil, k => rfl
  | .cons k' v rest, k => by
      simp [additional_properties_fields, hasKey,
        additional_properties_fields_hasKey rest k]

theorem objValueStrict_fields_append :
    ∀ (a b : JsonFields),
      objValueStrict_fields (a.append b) =
        (objValueStrict_fields a && objValueStrict_fields b)
  | .nil, b => rfl
  | .cons k v rest, b => by
      simp [JsonFields.append, objValueStrict_fields,
        objValueStrict_fields_append rest b, Bool.and_assoc]

/-- Source-order sanity check: recursing after the in-place injection
(`v["additionalProperties"] = False` then `additional_properties(v)`, as the
source orders it) is the same as the definition used here, because the
injected entry is a scalar that the pass maps to itself. -/
theorem additional_properties_fields_append :
    ∀ (a b : JsonFields),
      additional_properties_fields (a.append b) =
        (additional_properties_fields a).append (additional_properties_fields b)
  | .nil, b => rfl
  | .cons k v rest, b => by
      simp [JsonFields.append, additional_properties_fields,
        additional_properties_fields_append rest b]

theorem additional_properties_inject (gs : JsonFields) :
    additional_properties (.obj (inject_additional gs)) =
      additional_properties_value (.obj gs) := by
  by_cases h : (hasKey "properties" gs && !hasKey "additionalProperties" gs) = true
  · simp [inject_additional, injTail, h, additional_properties,
      additional_properties_value, additional_properties_fields_append,
      additional_properties_fields]
  · simp [inject_additional, injTail, h, additional_properties,
      additional_properties_value, JsonFields.append_nil]

mutual
/-- After the pass, every mapping sitting as a mapping-entry value satisfies
`properties ∈ keys → additionalProperties ∈ keys`, recursively. -/
theorem additional_properties_strict :
    ∀ (d : Json), objValueStrict (additional_properties d) = true
  | .null => rfl
  | .bool _ => rfl
  | .num _ => rfl
  | .str _ => rfl
  | .arr _ => rfl
  | .obj fields => by
      simpa [additional_properties, objValueStrict] using
        additional_properties_fields_strict fields

theorem additional_properties_fields_strict :
    ∀ (l : JsonFields),
      objValueStrict_fields (additional_properties_fields l) = true
  | .nil => rfl
  | .cons k v rest => by
      simp [additional_properties_fields, objValueStrict_fields,
        additional_properties_value_strict v,
        additional_properties_fields_strict rest]

theorem additional_properties_value_strict :
    ∀ (v : Json), objValueStrict_value (additional_properties_value v) = true
  | .null => rfl
  | .bool _ => rfl
  | .num _ => rfl
  | .str _ => rfl
  | .arr _ => rfl
  | .obj gs => by
      cases hp : hasKey "properties" gs <;>
        cases ha : hasKey "additionalProperties" gs <;>
        simp [additional_properties_value, injTail, hp, ha, hasKey_append,
          additional_properties_fields_hasKey, objValueStrict_fields_append,
          additional_properties_fields_strict gs, objValueStrict_value,
          objValueStrict_fields, hasKey]
end

mutual
/-- On a tree already satisfying the strictness invariant the pass is the
identity. -/
theorem additional_properties_id_of_strict :
    ∀ (d : Json), objValueStrict d = true → additional_properties d = d
  | .null, _ => rfl
  | .bool _, _ => rfl
  | .num _, _ => rfl
  | .str _, _ => rfl
  | .arr _, _ => rfl
  | .obj fields, h => by
      simpa [additional_properties] using
        additional_properties_fields_id_of_strict fields (by simpa [objValueStrict] using h)

theorem additional_properties_fields_id_of_strict :
    ∀ (l : JsonFields), objValueStrict_fields l = true →
      additional_properties_fields l = l
  | .nil, _ => rfl
  | .cons k v rest, h => by
      simp only [objValueStrict_fields, Bool.and_eq_true] at h
      simp [additional_properties_fields,
        additional_properties_value_id_of_strict v h.1,
        additional_properties_fields_id_of_strict rest h.2]

theorem additional_properties_value_id_of_strict :
    ∀ (v : Json), objValueStrict_value v = true → additional_properties_value v = v
  | .null, _ => rfl
  | .bool _, _ => rfl
  | .num _, _ => rfl
  | .str _, _ => rfl
  | .arr _, _ => rfl
  | .obj gs, h => by
      simp only [objValueStrict_value, Bool.and_eq_true, Bool.or_eq_true,
        Bool.not_eq_true'] at h
      have htail : injTail gs = .nil := by
        rcases h.1 with hp | ha
        · simp [injTail, hp]
        · simp [injTail, ha]
      simp [additional_properties_value, htail, JsonFields.append_nil,
        additional_properties_fields_id_of_strict gs h.2]
end

mutual
/-- The tree the pass returns and the mutated argument it leaves behind are
the same tree. -/
theorem additional_properties_argAfter_eq :
    ∀ (d : Json), additional_properties_argAfter d = additional_properties d
  | .null => rfl
  | .bool _ => rfl
  | .num _ => rfl
  | .str _ => rfl
  | .arr _ => rfl
  | .obj fields => by
      simp [additional_properties_argAfter, additional_properties,
        additional_properties_argAfter_fields_eq fields]

theorem additional_properties_argAfter_fields_eq :
    ∀ (l : JsonFields),
      additional_properties_argAfter_fields l = additional_properties_fields l
  | .nil => rfl
  | .cons k v rest => by
      simp [additional_properties_argAfter_fields, additional_properties_fields,
        additional_properties_argAfter_value_eq v,
        additional_properties_argAfter_fields_eq rest]

theorem additional_properties_argAfter_value_eq :
    ∀ (v : Json),
      additional_properties_argAfter_value v = additional_properties_value v
  | .null => rfl
  | .bool _ => rfl
  | .num _ => rfl
  | .str _ => rfl
  | .arr _ => rfl
  | .obj gs => by
      simp [additional_properties_argAfter_value, additional_properties_value,
        additional_properties_argAfter_fields_eq gs]
end

/-!
## Supporting lemmas: entry membership through the rebuilding passes
-/

theorem hasKey_eq_isSome : ∀ (l : JsonFields) (k : String),
    hasKey k l = (lookupF k l).isSome
  | .nil, k => rfl
  | .cons k' v rest, k => by
      by_cases h : (k' == k) = true <;>
        simp [hasKey, lookupF, h, hasKey_eq_isSome rest k]

theorem hasEntry_change_dict_values :
    ∀ (l : JsonFields) (k : String) (v : Json) (pfx version : String),
      hasEntry k v l = true →
      hasEntry k (change_dict_values_value k v pfx version)
        (change_dict_values_fields l pfx version) = true
  | .cons k' v' rest, k, v, pfx, version, h => by
      simp only [hasEntry, Bool.or_eq_true, Bool.and_eq_true, beq_iff_eq] at h
      rcases h with ⟨hk, hv⟩ | h
      · subst hk; subst hv
        simp [change_dict_values_fields, hasEntry]
      · simp [change_dict_values_fields, hasEntry,
          hasEntry_change_dict_values rest k v pfx version h]

theorem hasEntry_replace_int_or_string :
    ∀ (l : JsonFields) (k : String) (v : Json),
      hasEntry k v l = true →
      hasEntry k (replace_int_or_string_value v)
        (replace_int_or_string_fields l) = true
  | .cons k' v' rest, k, v, h => by
      simp only [hasEntry, Bool.or_eq_true, Bool.and_eq_true, beq_iff_eq] at h
      rcases h with ⟨hk, hv⟩ | h
      · subst hk; subst hv
        simp [replace_int_or_string_fields, hasEntry]
      · simp [replace_int_or_string_fields, hasEntry,
          hasEntry_replace_int_or_string rest k v h]

theorem hasEntry_allow_null_fields :
    ∀ (l : JsonFields) (data par gp key : Json) (fs' : JsonFields)
      (k : String) (v : Json),
      allow_null_optional_fields_fields l data par gp key = .ok fs' →
      hasEntry k v l = true →
      ∃ v', allow_null_optional_fields_value k v data par gp key = .ok v' ∧
        hasEntry k v' fs' = true
  | .cons k' v'' rest, data, par, gp, key, fs', k, v, hok, hmem => by
      simp only [allow_null_optional_fields_fields] at hok
      cases hv : allow_null_optional_fields_value k' v'' data par gp key with
      | error e => rw [hv] at hok; exact absurd hok (by simp)
      | ok h1 =>
          rw [hv] at hok
          cases hrest : allow_null_optional_fields_fields rest data par gp key with
          | error e => rw [hrest] at hok; exact absurd hok (by simp)
          | ok rest' =>
              rw [hrest] at hok
              simp only [Except.ok.injEq] at hok
              subst hok
              simp only [hasEntry, Bool.or_eq_true, Bool.and_eq_true, beq_iff_eq] at hmem
              rcases hmem with ⟨hk, hvv⟩ | hmem
              · subst hk; subst hvv
                exact ⟨h1, hv, by simp [hasEntry]⟩
              · obtain ⟨v', hval, hmem'⟩ :=
                  hasEntry_allow_null_fields rest data par gp key rest' k v hrest hmem
                exact ⟨v', hval, by simp [hasEntry, hmem']⟩

/-- Evaluation of the string-leaf rule of the Nullable-Field Expander for a
leaf stored under key `"type"`, when the grandparent is a mapping whose
`required` entry (if any) is a list `R`. -/
theorem allow_null_leaf_eval (tv keyName : String) (gfields : JsonFields)
    (R : JsonElems)
    (htv : tv = "array" ∨ tv = "string")
    (hreq : lookupF "required" gfields = some (.arr R) ∨
            (lookupF "required" gfields = none ∧ R = .nil)) :
    allow_null_leaf "type" tv (.obj gfields) (.str keyName) =
      .ok (if JsonElems.contains (.str keyName) R then .str tv
           else .arr (.ofList [Json.str tv, Json.str "null"])) := by
  rcases hreq with hsome | ⟨hnone, hR⟩
  · have hkey : hasKey "required" gfields = true := by
      rw [hasKey_eq_isSome, hsome]; rfl
    have htr : truthy (.obj gfields) = true := by
      cases gfields with
      | nil => simp [lookupF] at hsome
      | cons k v rest => simp [truthy]
    unfold allow_null_leaf
    simp only [htr, if_true, pyIn, hkey, pySubscript, hsome]
    rcases htv with h | h <;> subst h <;>
      cases hc : JsonElems.contains (.str keyName) R <;>
        simp [hc, Except.map]
  · subst hR
    have hkey : hasKey "required" gfields = false := by
      rw [hasKey_eq_isSome, hnone]; rfl
    unfold allow_null_leaf
    cases htr : truthy (.obj gfields) <;>
      rcases htv with h | h <;> subst h <;>
        simp [htr, pyIn, hkey, JsonElems.contains, Except.map]

/-!
## Supporting lemmas: the emitter loop and the aggregate file
-/

/-- Whether a node is a mapping. -/
def isObj : Json → Bool
  | .obj _ => true
  | _ => false

/-- The first element of `group_version_kind title` (the derived group). -/
def groupOf (t : String) : String :=
  match group_version_kind t with
  | g :: _ => g
  | [] => ""

/-- A declared type that the emitter loop can process without raising
outside the per-type `try` block: either its title is skipped by the
internal-package prefix, or the lowered title has exactly three segments
and (unless the derived group is `"api"`, which is skipped) its schema node
is a mapping. -/
def emit_ready (p : String × Json) : Bool :=
  pyStartsWith p.1 "io.k8s.kubernetes.pkg.apis" ||
    ((group_version_kind p.1).length == 3 &&
      (groupOf p.1 == "api" || isObj p.2))


theorem writtenFiles_cons_skipped (rs : List TypeResult) :
    writtenFiles (.skipped :: rs) = writtenFiles rs := by
  simp [writtenFiles]

theorem writtenFiles_cons_failed (k : String) (rs : List TypeResult) :
    writtenFiles (.failed k :: rs) = writtenFiles rs := by
  simp [writtenFiles]

theorem writtenFiles_cons_written (fn : String) (c : Json) (rs : List TypeResult) :
    writtenFiles (.written fn c :: rs) = fn :: writtenFiles rs := by
  simp [writtenFiles]

theorem processLoop_completes (cfg : EmitCfg) (deref : Json → Except String Json) :
    ∀ (types : List (String × Json)),
      (∀ p ∈ types, emit_ready p = true) →
      (processLoop cfg deref types).2 = none ∧
      (processLoop cfg deref types).1.length = types.length ∧
      ∀ f ∈ writtenFiles (processLoop cfg deref types).1,
        ∃ g v k, f = output_filename g v k
  | [], _ => by simp [processLoop, writtenFiles]
  | (title, spec) :: rest, h => by
      have hhead := h _ (List.mem_cons_self _ _)
      have htail := processLoop_completes cfg deref rest
        (fun p hp => h p (List.mem_cons_of_mem _ hp))
      by_cases hpre : pyStartsWith title "io.k8s.kubernetes.pkg.apis" = true
      · simp only [processLoop, hpre, if_true]
        refine ⟨htail.1, by simp [htail.2.1], ?_⟩
        intro f hf
        rw [writtenFiles_cons_skipped] at hf
        exact htail.2.2 f hf
      · have hpre' : pyStartsWith title "io.k8s.kubernetes.pkg.apis" = false := by
          simpa using hpre
        simp only [emit_ready, hpre', Bool.false_or, Bool.and_eq_true,
          Bool.or_eq_true, beq_iff_eq, Nat.beq_eq_true_eq] at hhead
        obtain ⟨g, v, k, hgvk⟩ := List.length_eq_three.mp hhead.1
        by_cases hg : g = "api"
        · subst hg
          simp only [processLoop, hpre', Bool.false_eq_true, if_false, hgvk,
            beq_self_eq_true, if_true]
          refine ⟨htail.1, by simp [htail.2.1], ?_⟩
          intro f hf
          rw [writtenFiles_cons_skipped] at hf
          exact htail.2.2 f hf
        · have hobj : isObj spec = true := by
            rcases hhead.2 with hapi | hobj
            · exact absurd (by simpa [groupOf, hgvk] using hapi) hg
            · exact hobj
          obtain ⟨fs, rfl⟩ : ∃ fs, spec = Json.obj fs := by
            cases spec <;> first | exact ⟨_, rfl⟩ | simp [isObj] at hobj
          have hg' : (g == "api") = false := by simpa using hg
          simp only [processLoop, hpre', Bool.false_eq_true, if_false, hgvk, hg',
            set_schema_defaults]
          cases hb : process_type_body cfg deref title k
              (.obj (if hasKey "type" (setKey fs "$schema" (.str "http://json-schema.org/schema#"))
                     then setKey fs "$schema" (.str "http://json-schema.org/schema#")
                     else (setKey fs "$schema" (.str "http://json-schema.org/schema#")).append
                            (.cons "type" (.str "object") .nil))) with
          | ok content =>
              simp only [hb]
              refine ⟨htail.1, by simp [htail.2.1], ?_⟩
              intro f hf
              rw [writtenFiles_cons_written] at hf
              rcases List.mem_cons.mp hf with hf1 | hf2
              · exact ⟨g, v, k, hf1⟩
              · exact htail.2.2 f hf2
          | error e =>
              simp only [hb]
              refine ⟨htail.1, by simp [htail.2.1], ?_⟩
              intro f hf
              rw [writtenFiles_cons_failed] at hf
              exact htail.2.2 f hf

theorem all_json_entry_ok (t pfx version : String) (sa : Bool)
    (h : (group_version_kind t).length = 3) :
    ∃ s, all_json_entry t pfx version sa = .ok s := by
  obtain ⟨g, v, k, hgvk⟩ := List.length_eq_three.mp h
  unfold all_json_entry
  cases hlt : pyLt version "3" <;> cases sa <;> simp [hgvk]

theorem all_json_oneOf_ok :
    ∀ (titles : List String) (pfx version : String) (sa : Bool),
      (∀ t ∈ titles, (group_version_kind t).length = 3) →
      ∃ es, all_json_oneOf titles pfx version sa = .ok es ∧
        es.length = titles.length
  | [], _, _, _, _ => ⟨[], rfl, rfl⟩
  | t :: ts, pfx, version, sa, h => by
      obtain ⟨s, hs⟩ := all_json_entry_ok t pfx version sa (h t (List.mem_cons_self _ _))
      obtain ⟨es, hes, hlen⟩ := all_json_oneOf_ok ts pfx version sa
        (fun u hu => h u (List.mem_cons_of_mem _ hu))
      exact ⟨s :: es, by simp [all_json_oneOf, hs, hes], by simp [hlen]⟩

/-- In v3 mode (`version < '3'` false) every `all.json` entry is defined,
whatever the titles are. -/
theorem all_json_oneOf_v3_ok :
    ∀ (titles : List String) (pfx version : String) (sa : Bool),
      pyLt version "3" = false →
      ∃ es, all_json_oneOf titles pfx version sa = .ok es
  | [], _, _, _, _ => ⟨[], rfl⟩
  | t :: ts, pfx, version, sa, h => by
      obtain ⟨es, hes⟩ := all_json_oneOf_v3_ok ts pfx version sa h
      exact ⟨(pyReplace t "#/components/schemas/" "" ++ ".json") :: es,
        by simp [all_json_oneOf, all_json_entry, h, hes]⟩

/-- No per-type output file can collide with the shared definitions file:
the former always contains a `-`, the latter does not. -/
theorem output_filename_ne_definitions (g v k : String) :
    output_filename g v k ≠ "_definitions.json" := by
  unfold output_filename
  split <;> intro heq <;>
    have hd := congrArg String.data heq
  · have h1 : '-' ∈ (k ++ "-" ++ v ++ ".json").data := by
      simp [String.data_append]
    rw [hd] at h1
    revert h1
    decide
  · have h1 : '-' ∈ (k ++ "-" ++ g ++ "-" ++ v ++ ".json").data := by
      simp [String.data_append]
    rw [hd] at h1
    revert h1
    decide

/-!
## Key paths through mapping values

`followPath` descends from a tree through mapping-entry values only, one
key per step (no sequences crossed): a non-empty path identifies exactly a
"mapping that occurs as the value of a mapping entry", at any depth. -/

def followPath : List String → Json → Option Json
  | [], d => some d
  | k :: p, .obj l =>
      match lookupF k l with
      | some v => followPath p v
      | none => none
  | _ :: _, _ => none

theorem lookupF_append_left :
    ∀ (a b : JsonFields) (k : String) (v : Json),
      lookupF k a = some v → lookupF k (a.append b) = some v
  | .cons k' v' rest, b, k, v, h => by
      by_cases hk : (k' == k) = true
      · simp only [lookupF, hk, if_true] at h
        simp [JsonFields.append, lookupF, hk, h]
      · simp only [lookupF, hk, if_false] at h
        simp [JsonFields.append, lookupF, hk,
          lookupF_append_left rest b k v h]

theorem lookupF_append_of_none :
    ∀ (a b : JsonFields) (k : String),
      lookupF k a = none → lookupF k (a.append b) = lookupF k b
  | .nil, b, k, _ => rfl
  | .cons k' v' rest, b, k, h => by
      by_cases hk : (k' == k) = true
      · simp [lookupF, hk] at h
      · simp only [lookupF, hk, if_false] at h
        simp [JsonFields.append, lookupF, hk,
          lookupF_append_of_none rest b k h]

theorem lookupF_additional_properties_fields :
    ∀ (l : JsonFields) (k : String),
      lookupF k (additional_properties_fields l) =
        (lookupF k l).map additional_properties_value
  | .nil, k => rfl
  | .cons k' v rest, k => by
      by_cases hk : (k' == k) = true <;>
        simp [additional_properties_fields, lookupF, hk,
          lookupF_additional_properties_fields rest k]

/-- Core of the C4 descent: inside a mapping *value* (where the pass does
inject), any strict-violating mapping at a non-empty key path gets
`additionalProperties: false` at the same path of the rewritten value. -/
theorem followPath_value_strict :
    ∀ (p : List String) (l gs : JsonFields), p ≠ [] →
      followPath p (.obj l) = some (.obj gs) →
      hasKey "properties" gs = true →
      hasKey "additionalProperties" gs = false →
      ∃ hs, followPath p (additional_properties_value (.obj l)) = some (.obj hs) ∧
        lookupF "additionalProperties" hs = some (.bool false)
  | [], _, _, hne, _, _, _ => absurd rfl hne
  | [k], l, gs, _, hfp, hp, ha => by
      simp only [followPath] at hfp
      cases hlk : lookupF k l with
      | none => rw [hlk] at hfp; simp at hfp
      | some v =>
          rw [hlk] at hfp
          simp only [followPath, Option.some.injEq] at hfp
          subst hfp
          have h1 : lookupF k (additional_properties_fields l) =
              some (additional_properties_value (.obj gs)) := by
            rw [lookupF_additional_properties_fields, hlk]; rfl
          have h2 := lookupF_append_left _ (injTail l) _ _ h1
          refine ⟨(additional_properties_fields gs).append (injTail gs), ?_, ?_⟩
          · simp [additional_properties_value, followPath, h2]
          · have hnone : lookupF "additionalProperties"
                (additional_properties_fields gs) = none := by
              cases hx : lookupF "additionalProperties" (additional_properties_fields gs) with
              | none => rfl
              | some x =>
                  exfalso
                  have hk := additional_properties_fields_hasKey gs "additionalProperties"
                  rw [hasKey_eq_isSome, hx, ha] at hk
                  simp at hk
            rw [lookupF_append_of_none _ _ _ hnone]
            simp [injTail, hp, ha, lookupF]
  | k :: k' :: p'', l, gs, _, hfp, hp, ha => by
      simp only [followPath] at hfp
      cases hlk : lookupF k l with
      | none => rw [hlk] at hfp; simp at hfp
      | some v =>
          rw [hlk] at hfp
          obtain ⟨l', rfl⟩ : ∃ l', v = Json.obj l' := by
            cases v <;> first | exact ⟨_, rfl⟩ | simp [followPath] at hfp
          obtain ⟨hs, hlem, hval⟩ :=
            followPath_value_strict (k' :: p'') l' gs (by simp) hfp hp ha
          refine ⟨hs, ?_, hval⟩
          have h1 : lookupF k (additional_properties_fields l) =
              some (additional_properties_value (.obj l')) := by
            rw [lookupF_additional_properties_fields, hlk]; rfl
          have h2 := lookupF_append_left _ (injTail l) _ _ h1
          simp only [additional_properties_value, followPath, h2]
          exact hlem

/-!
## Untargeted-entry preservation of the four passes

"Preserves every key/value the pass does not explicitly target" is
formalised per pass: every rebuilt mapping keeps exactly its keys, and an
entry whose value the pass's per-value rule leaves alone — a non-mapping
value for the Strictness Pass; a scalar for the Int-or-String Normalizer;
a scalar that is not a `$ref`-keyed string for the Reference Rewriter; a
scalar that is not a `type`-keyed `"array"`/`"string"` string for the
Nullable-Field Expander — reappears unchanged in the result. -/

/-- Whether a node is a scalar (not a mapping, not a sequence). -/
def isScalar : Json → Bool
  | .obj _ => false
  | .arr _ => false
  | _ => true

theorem replace_int_or_string_fields_hasKey :
    ∀ (l : JsonFields) (k : String),
      hasKey k (replace_int_or_string_fields l) = hasKey k l
  | .nil, k => rfl
  | .cons k' v rest, k => by
      simp [replace_int_or_string_fields, hasKey,
        replace_int_or_string_fields_hasKey rest k]

theorem change_dict_values_fields_hasKey :
    ∀ (l : JsonFields) (pfx version : String) (k : String),
      hasKey k (change_dict_values_fields l pfx version) = hasKey k l
  | .nil, _, _, k => rfl
  | .cons k' v rest, pfx, version, k => by
      simp [change_dict_values_fields, hasKey,
        change_dict_values_fields_hasKey rest pfx version k]

theorem allow_null_fields_hasKey :
    ∀ (l : JsonFields) (data par gp key : Json) (fs' : JsonFields),
      allow_null_optional_fields_fields l data par gp key = .ok fs' →
      ∀ k, hasKey k fs' = hasKey k l
  | .nil, _, _, _, _, fs', hok, k => by
      simp only [allow_null_optional_fields_fields, Except.ok.injEq] at hok
      subst hok; rfl
  | .cons k' v rest, data, par, gp, key, fs', hok, k => by
      simp only [allow_null_optional_fields_fields] at hok
      cases hv : allow_null_optional_fields_value k' v data par gp key with
      | error e => rw [hv] at hok; exact absurd hok (by simp)
      | ok h1 =>
          rw [hv] at hok
          cases hrest : allow_null_optional_fields_fields rest data par gp key with
          | error e => rw [hrest] at hok; exact absurd hok (by simp)
          | ok rest' =>
              rw [hrest] at hok
              simp only [Except.ok.injEq] at hok
              subst hok
              simp [hasKey, allow_null_fields_hasKey rest data par gp key rest' hrest k]

theorem additional_properties_value_of_not_obj (v : Json) (h : isObj v = false) :
    additional_properties_value v = v := by
  cases v <;> first | rfl | simp [isObj] at h

theorem replace_int_or_string_value_of_scalar (v : Json) (h : isScalar v = true) :
    replace_int_or_string_value v = v := by
  cases v <;> first | rfl | simp [isScalar] at h

theorem change_dict_values_value_untargeted (k : String) (v : Json)
    (pfx version : String) (h : isScalar v = true)
    (hstr : ∀ s, v = .str s → k ≠ "$ref") :
    change_dict_values_value k v pfx version = v := by
  cases v with
  | str s =>
      have hk : (k == "$ref") = false := by
        simpa using hstr s rfl
      simp [change_dict_values_value, hk]
  | obj l => simp [isScalar] at h
  | arr es => simp [isScalar] at h
  | null => rfl
  | bool b => rfl
  | num n => rfl

theorem except_map_ok {α β : Type} (f : α → β) (e : Except String α) (b : β)
    (h : e.map f = .ok b) : ∃ a, e = .ok a ∧ b = f a := by
  cases e with
  | error e => simp [Except.map] at h
  | ok a => exact ⟨a, rfl, by simpa [Except.map] using h.symm⟩

theorem allow_null_leaf_untargeted (k s : String) (gp key v' : Json)
    (h : (k == "type" && (s == "array" || s == "string")) = false)
    (hok : allow_null_leaf k s gp key = .ok v') : v' = .str s := by
  have ha : (k == "type" && s == "array") = false := by
    cases h1 : (k == "type") <;> cases h2 : (s == "array") <;> simp_all
  have hs2 : (k == "type" && s == "string") = false := by
    cases h1 : (k == "type") <;> cases h3 : (s == "string") <;> simp_all
  simp only [allow_null_leaf] at hok
  obtain ⟨b, hb, hv⟩ := except_map_ok _ _ _ hok
  rw [hv]
  simp [ha, hs2]

theorem hasEntry_additional_properties_untargeted :
    ∀ (l : JsonFields) (k : String) (v : Json),
      hasEntry k v l = true → isObj v = false →
      hasEntry k v (additional_properties_fields l) = true
  | .cons k' v' rest, k, v, h, hv => by
      simp only [hasEntry, Bool.or_eq_true, Bool.and_eq_true, beq_iff_eq] at h
      rcases h with ⟨hk, hveq⟩ | h
      · subst hk; subst hveq
        simp [additional_properties_fields, hasEntry,
          additional_properties_value_of_not_obj _ hv]
      · simp [additional_properties_fields, hasEntry,
          hasEntry_additional_properties_untargeted rest k v h hv]

theorem hasEntry_replace_int_or_string_untargeted :
    ∀ (l : JsonFields) (k : String) (v : Json),
      hasEntry k v l = true → isScalar v = true →
      hasEntry k v (replace_int_or_string_fields l) = true
  | .cons k' v' rest, k, v, h, hv => by
      simp only [hasEntry, Bool.or_eq_true, Bool.and_eq_true, beq_iff_eq] at h
      rcases h with ⟨hk, hveq⟩ | h
      · subst hk; subst hveq
        simp [replace_int_or_string_fields, hasEntry,
          replace_int_or_string_value_of_scalar _ hv]
      · simp [replace_int_or_string_fields, hasEntry,
          hasEntry_replace_int_or_string_untargeted rest k v h hv]

theorem hasEntry_change_dict_values_untargeted :
    ∀ (l : JsonFields) (pfx version : String) (k : String) (v : Json),
      hasEntry k v l = true → isScalar v = true →
      (∀ s, v = .str s → k ≠ "$ref") →
      hasEntry k v (change_dict_values_fields l pfx version) = true
  | .cons k' v' rest, pfx, version, k, v, h, hv, hstr => by
      simp only [hasEntry, Bool.or_eq_true, Bool.and_eq_true, beq_iff_eq] at h
      rcases h with ⟨hk, hveq⟩ | h
      · subst hk; subst hveq
        simp [change_dict_values_fields, hasEntry,
          change_dict_values_value_untargeted _ _ pfx version hv hstr]
      · simp [change_dict_values_fields, hasEntry,
          hasEntry_change_dict_values_untargeted rest pfx version k v h hv hstr]

theorem hasEntry_allow_null_untargeted
    (l : JsonFields) (data par gp key : Json) (fs' : JsonFields)
    (k : String) (v : Json)
    (hok : allow_null_optional_fields_fields l data par gp key = .ok fs')
    (hmem : hasEntry k v l = true) (hv : isScalar v = true)
    (hstr : ∀ s, v = .str s → (k == "type" && (s == "array" || s == "string")) = false) :
    hasEntry k v fs' = true := by
  obtain ⟨v', hval, hmem'⟩ :=
    hasEntry_allow_null_fields l data par gp key fs' k v hok hmem
  suffices hvv : v' = v by rwa [hvv] at hmem'
  cases v with
  | str s =>
      have := allow_null_leaf_untargeted k s gp key v' (hstr s rfl)
        (by simpa [allow_null_optional_fields_value] using hval)
      exact this
  | null => simpa [allow_null_optional_fields_value] using hval.symm
  | bool b => simpa [allow_null_optional_fields_value] using hval.symm
  | num n => simpa [allow_null_optional_fields_value] using hval.symm
  | obj gs => simp [isScalar] at hv
  | arr es => simp [isScalar] at hv

/-!
## Claim theorems
-/

/-- C1 (counterexample): the claim asserts that kind and version appear in
the output filename exactly as in the title, with
`"example.com.widgets.v1.Widget"` yielding `"Widget-widgets-v1.json"` and
`"core.v1.Pod"` yielding `"Pod-v1.json"`.  The code lowercases the whole
title first (`title.lower().split('.')`), so the filenames are
`"widget-widgets-v1.json"` and `"pod-v1.json"`. -/
theorem c1_counterexample :
    title_outcome "example.com.widgets.v1.Widget" = .emitted "widget-widgets-v1.json" ∧
    "widget-widgets-v1.json" ≠ "Widget-widgets-v1.json" ∧
    title_outcome "core.v1.Pod" = .emitted "pod-v1.json" ∧
    "pod-v1.json" ≠ "Pod-v1.json" := by
  refine ⟨by decide, by decide, by decide, by decide⟩

/-- C1 (amended): for every declared type whose title has at least three
dot-separated segments, the output filename is computed from the last three
segments of the *lowercased* title (group, version, kind) as
`kind-version.json` when group is `"core"` and `kind-group-version.json`
otherwise; `"example.com.widgets.v1.Widget"` yields
`"widget-widgets-v1.json"`, `"core.v1.Pod"` yields `"pod-v1.json"`, and any
title whose derived group is `"api"` is skipped. -/
theorem c1_filename_from_lowered_title :
    (∀ (title g v k : String),
       pyStartsWith title "io.k8s.kubernetes.pkg.apis" = false →
       group_version_kind title = [g, v, k] →
       title_outcome title =
         if g = "api" then .skipped else .emitted (output_filename g v k)) ∧
    title_outcome "example.com.widgets.v1.Widget" = .emitted "widget-widgets-v1.json" ∧
    title_outcome "core.v1.Pod" = .emitted "pod-v1.json" ∧
    title_outcome "x.api.v1.Kind" = .skipped := by
  refine ⟨?_, by decide, by decide, by decide⟩
  intro title g v k hpre hgvk
  by_cases hg : g = "api" <;>
    · have hg' : (g == "api") = decide (g = "api") := by
        by_cases h : g = "api" <;> simp [h]
      simp [title_outcome, hpre, hgvk, hg, hg']

/-- C1 (witness for the amended theorem). -/
theorem c1_witness : title_outcome "a.b2.c" = .emitted "c-a-b2.json" := by
  have h := c1_filename_from_lowered_title.1 "a.b2.c" "a" "b2" "c"
    (by decide) (by decide)
  exact h.trans (by decide)

/-- C2 (counterexample): a declared type skipped by the emitter (here one
matching the excluded internal-package prefix) still contributes an entry
to `all.json` — the `all.json` loop iterates over every title with no skip
conditions, contradicting "declared types that were skipped ... contribute
no entry to the union". -/
theorem c2_counterexample :
    title_outcome "io.k8s.kubernetes.pkg.apis.foo.v1.Bar" = .skipped ∧
    all_json_oneOf ["io.k8s.kubernetes.pkg.apis.foo.v1.Bar"]
        "_definitions.json" "2.0" false =
      .ok ["_definitions.json#/definitions/io.k8s.kubernetes.pkg.apis.foo.v1.Bar"] := by
  refine ⟨by decide, by decide⟩

/-- C2 (amended): after all declared types are processed, `all.json`
contains `{"oneOf": [...]}` with exactly one reference entry per *declared*
type, in declaration order, whether or not that type was skipped during
per-type emission; for `version < '3'` without `--stand-alone` the entry
for title `t` is `prefix + "#/definitions/" + t`, and for v3-style
documents it is `t` (with any `#/components/schemas/` occurrences removed)
followed by `.json`. -/
theorem c2_all_json_lists_every_declared_type :
    (∀ (titles : List String) (pfx version : String) (sa : Bool),
       (∀ t ∈ titles, (group_version_kind t).length = 3) →
       ∃ es, all_json_oneOf titles pfx version sa = .ok es ∧
         es.length = titles.length) ∧
    (∀ (titles : List String) (pfx version : String),
       pyLt version "3" = true →
       all_json_oneOf titles pfx version false =
         .ok (titles.map (fun t => pfx ++ "#/definitions/" ++ t))) ∧
    (∀ (titles : List String) (pfx version : String) (sa : Bool),
       pyLt version "3" = false →
       all_json_oneOf titles pfx version sa =
         .ok (titles.map (fun t => pyReplace t "#/components/schemas/" "" ++ ".json"))) := by
  refine ⟨fun titles pfx version sa h => all_json_oneOf_ok titles pfx version sa h,
    fun titles pfx version h => ?_, fun titles pfx version sa h => ?_⟩ <;>
  · induction titles with
    | nil => simp [all_json_oneOf]
    | cons t ts ih => simp [all_json_oneOf, all_json_entry, h, ih]

/-- C2 (witness for the amended theorem). -/
theorem c2_witness :
    ∃ es, all_json_oneOf ["core.v1.Pod", "x.api.v1.Kind", "io.k8s.kubernetes.pkg.apis.foo.v1.Bar"]
        "_definitions.json" "2.0" true = .ok es ∧ es.length = 3 :=
  c2_all_json_lists_every_declared_type.1 _ "_definitions.json" "2.0" true (by decide)

/-- C3 (confirmed): in any invocation of the Nullable-Field Expander on an
enclosing mapping — `keyName` being the key under which that mapping sits in
its parent and the grandparent being a mapping whose `required` entry, if
present, is the list `R` (exactly the context the recursion of
`allow_null_optional_fields` passes down) — a string leaf stored under the
key `"type"` with value `"array"` or `"string"` is rewritten to the
two-element sequence `[value, "null"]` when `keyName` does not occur in
`R`, and left unchanged when it does. -/
theorem c3_nullable_expansion
    (fields : JsonFields) (par : Json) (gfields : JsonFields) (keyName : String)
    (R : JsonElems) (res : Json) (tv : String)
    (htv : tv = "array" ∨ tv = "string")
    (hreq : lookupF "required" gfields = some (.arr R) ∨
            (lookupF "required" gfields = none ∧ R = .nil))
    (hok : allow_null_optional_fields (.obj fields) par (.obj gfields) (.str keyName) = .ok res)
    (hmem : hasEntry "type" (.str tv) fields = true) :
    ∃ fs', res = .obj fs' ∧
      hasEntry "type"
        (if JsonElems.contains (.str keyName) R then Json.str tv
         else .arr (.ofList [Json.str tv, Json.str "null"])) fs' = true := by
  simp only [allow_null_optional_fields] at hok
  cases hff : allow_null_optional_fields_fields fields (.obj fields) par
      (.obj gfields) (.str keyName) with
  | error e => rw [hff] at hok; exact absurd hok (by simp)
  | ok fs' =>
      rw [hff] at hok
      simp only [Except.ok.injEq] at hok
      obtain ⟨v', hval, hmem'⟩ :=
        hasEntry_allow_null_fields fields (.obj fields) par (.obj gfields)
          (.str keyName) fs' "type" (.str tv) hff hmem
      have hleaf : allow_null_optional_fields_value "type" (.str tv) (.obj fields)
          par (.obj gfields) (.str keyName) =
            .ok (if JsonElems.contains (.str keyName) R then Json.str tv
                 else .arr (.ofList [Json.str tv, Json.str "null"])) := by
        simpa [allow_null_optional_fields_value] using
          allow_null_leaf_eval tv keyName gfields R htv hreq
      rw [hleaf] at hval
      simp only [Except.ok.injEq] at hval
      exact ⟨fs', hok.symm, hval ▸ hmem'⟩

/-- C3 (witness). -/
theorem c3_witness :
    ∃ fs', (Json.obj (.ofList [("type", Json.arr (.ofList [Json.str "string", Json.str "null"]))])) = .obj fs' ∧
      hasEntry "type"
        (if JsonElems.contains (.str "other") (.ofList [Json.str "name"]) then Json.str "string"
         else .arr (.ofList [Json.str "string", Json.str "null"])) fs' = true :=
  c3_nullable_expansion (.ofList [("type", Json.str "string")]) .null
    (.ofList [("required", .arr (.ofList [Json.str "name"]))]) "other"
    (.ofList [Json.str "name"])
    (.obj (.ofList [("type", Json.arr (.ofList [Json.str "string", Json.str "null"]))]))
    "string" (Or.inr rfl) (Or.inl (by decide)) (by decide) (by decide)

/-- C4 (counterexample): the claim requires `additionalProperties == false`
also at the root node (and at mappings reached through sequences).  The
pass only rewrites mappings that occur as *values* of mapping entries: a
root mapping that has `properties` and no `additionalProperties` is
returned without injection, and a mapping inside a sequence is not touched
at all. -/
theorem c4_counterexample :
    additional_properties (.obj (.ofList [("properties", .obj .nil)])) =
      .obj (.ofList [("properties", .obj .nil)]) ∧
    hasKey "properties" (.ofList [("properties", .obj .nil)]) = true ∧
    hasKey "additionalProperties" (.ofList [("properties", .obj .nil)]) = false ∧
    additional_properties
        (.obj (.ofList [("a", .arr (.ofList [Json.obj (.ofList [("properties", .obj .nil)])]))])) =
      .obj (.ofList [("a", .arr (.ofList [Json.obj (.ofList [("properties", .obj .nil)])]))]) := by
  refine ⟨by decide, by decide, by decide, by decide⟩

/-- C4 (amended): after the Strictness Pass, every mapping that occurs as
the value of a mapping entry — i.e. that sits at a non-empty path of
mapping-entry keys, recursively through mapping values, but not the root
node and not mappings reached only through sequences — and that contains
the key `properties` while not already containing the key
`additionalProperties`, has `additionalProperties` bound to `false` at the
same path in the result. -/
theorem c4_additional_properties_false_at_descendants
    (d : Json) (p : List String) (gs : JsonFields)
    (hne : p ≠ [])
    (hfp : followPath p d = some (.obj gs))
    (hp : hasKey "properties" gs = true)
    (ha : hasKey "additionalProperties" gs = false) :
    ∃ hs, followPath p (additional_properties d) = some (.obj hs) ∧
      lookupF "additionalProperties" hs = some (.bool false) := by
  cases p with
  | nil => exact absurd rfl hne
  | cons k p' =>
      cases d with
      | obj l =>
          simp only [followPath] at hfp
          cases hlk : lookupF k l with
          | none => rw [hlk] at hfp; simp at hfp
          | some v =>
              rw [hlk] at hfp
              simp only at hfp
              obtain ⟨hs, hlem, hval⟩ :=
                followPath_value_strict (k :: p') l gs (by simp)
                  (by simp [followPath, hlk, hfp]) hp ha
              refine ⟨hs, ?_, hval⟩
              have h1 : lookupF k (additional_properties_fields l) =
                  some (additional_properties_value v) := by
                rw [lookupF_additional_properties_fields, hlk]; rfl
              have h2 : lookupF k
                  ((additional_properties_fields l).append (injTail l)) =
                    some (additional_properties_value v) :=
                lookupF_append_left _ _ _ _ h1
              simp only [additional_properties, followPath, h1]
              simpa only [additional_properties_value, followPath, h2] using hlem
      | null => simp [followPath] at hfp
      | bool b => simp [followPath] at hfp
      | num n => simp [followPath] at hfp
      | str s => simp [followPath] at hfp
      | arr es => simp [followPath] at hfp

/-- C4 (witness). -/
theorem c4_witness :
    ∃ hs, followPath ["a"]
        (additional_properties (.obj (.ofList [("a", .obj (.ofList [("properties", .obj .nil)]))]))) =
      some (.obj hs) ∧
      lookupF "additionalProperties" hs = some (.bool false) :=
  c4_additional_properties_false_at_descendants
    (.obj (.ofList [("a", .obj (.ofList [("properties", .obj .nil)]))]))
    ["a"] (.ofList [("properties", .obj .nil)])
    (by simp) (by decide) (by decide) (by decide)

/-- C5 (counterexample): for a v3-style version the code computes
`v.replace("#/components/schemas/", "") + ".json"`, which removes *every*
occurrence of the pattern, not only a leading prefix: on
`"x#/components/schemas/y"` it produces `"xy.json"`, while stripping a
leading prefix would leave the value unchanged and produce
`"x#/components/schemas/y.json"`.  Also, a mapping value stored under the
key `$ref` is not left unchanged — it is rewritten recursively. -/
theorem c5_counterexample :
    change_dict_values (.obj (.ofList [("$ref", Json.str "x#/components/schemas/y")])) "p" "3.0.0" =
      .obj (.ofList [("$ref", Json.str "xy.json")]) ∧
    ("xy.json" : String) ≠ "x#/components/schemas/y" ++ ".json" ∧
    change_dict_values (.obj (.ofList [("$ref", Json.obj (.ofList [("$ref", Json.str "a")]))])) "p" "2.0" ≠
      .obj (.ofList [("$ref", Json.obj (.ofList [("$ref", Json.str "a")]))]) := by
  refine ⟨by decide, by decide, by decide⟩

/-- C5 (amended): for every mapping entry whose key is `$ref` and whose
value is a string, the Reference Rewriter produces the prefix concatenated
with the original value when the version string is lexically less than
`"3"`, and otherwise the original value with *every occurrence* of
`"#/components/schemas/"` removed and `".json"` appended.  String entries
under any other key are left unchanged (mapping and sequence values are
instead rewritten recursively). -/
theorem c5_ref_rewrite (l : JsonFields) (pfx version k s : String)
    (hmem : hasEntry k (.str s) l = true) :
    ∃ fs, change_dict_values (.obj l) pfx version = .obj fs ∧
      hasEntry k
        (.str (if k = "$ref" then
                 (if pyLt version "3" = true then pfx ++ s
                  else pyReplace s "#/components/schemas/" "" ++ ".json")
               else s)) fs = true := by
  refine ⟨change_dict_values_fields l pfx version, by simp [change_dict_values], ?_⟩
  have h := hasEntry_change_dict_values l k (.str s) pfx version hmem
  have hval : change_dict_values_value k (.str s) pfx version =
      .str (if k = "$ref" then
              (if pyLt version "3" = true then pfx ++ s
               else pyReplace s "#/components/schemas/" "" ++ ".json")
            else s) := by
    by_cases hk : k = "$ref" <;>
      cases hv : pyLt version "3" <;>
        simp [change_dict_values_value, hk, hv]
  rwa [hval] at h

/-- C5 (witness for the amended theorem). -/
theorem c5_witness :
    ∃ fs, change_dict_values (.obj (.ofList [("$ref", Json.str "#/definitions/X")])) "_definitions.json" "2.0" = .obj fs ∧
      hasEntry "$ref"
        (.str (if "$ref" = "$ref" then
                 (if pyLt "2.0" "3" = true then "_definitions.json" ++ "#/definitions/X"
                  else pyReplace "#/definitions/X" "#/components/schemas/" "" ++ ".json")
               else "#/definitions/X")) fs = true :=
  c5_ref_rewrite (.ofList [("$ref", Json.str "#/definitions/X")])
    "_definitions.json" "2.0" "$ref" "#/definitions/X" (by decide)

/-- C6 (counterexample): the Strictness Pass is *not* non-mutating on its
argument.  Line 39 of the source assigns `v["additionalProperties"] = False`
into dict values of the input tree; `additional_properties_argAfter`
describes the argument after the call, and on this input it differs from
the argument before the call. -/
theorem c6_counterexample :
    additional_properties_argAfter
        (.obj (.ofList [("a", .obj (.ofList [("properties", .obj .nil)]))])) ≠
      .obj (.ofList [("a", .obj (.ofList [("properties", .obj .nil)]))]) := by
  decide

/-- C6 (amended): every transform pass preserves every key/value it does
not explicitly target — each rebuilt mapping keeps exactly its keys, and
entries outside a pass's per-value rule (non-mapping values for the
Strictness Pass; scalars for the Int-or-String Normalizer; scalars other
than `$ref`-keyed strings for the Reference Rewriter; scalars other than
`type`-keyed `"array"`/`"string"` strings for the Nullable-Field Expander)
reappear unchanged in the result.  The Int-or-String Normalizer, the
Nullable-Field Expander and the Reference Rewriter build their results
without assigning into the input tree (pure rebuilds, as embedded above),
but the Strictness Pass mutates its argument in place: after the call the
argument equals the *returned* tree — which the counterexample shows may
differ from the tree passed in. -/
theorem c6_passes_preserve_untargeted_and_strictness_mutates :
    (∀ (d : Json), additional_properties_argAfter d = additional_properties d) ∧
    (∀ (l : JsonFields) (k : String),
       hasKey k (additional_properties_fields l) = hasKey k l ∧
       hasKey k (replace_int_or_string_fields l) = hasKey k l) ∧
    (∀ (l : JsonFields) (pfx version : String) (k : String),
       hasKey k (change_dict_values_fields l pfx version) = hasKey k l) ∧
    (∀ (l : JsonFields) (data par gp key : Json) (fs' : JsonFields),
       allow_null_optional_fields_fields l data par gp key = .ok fs' →
       ∀ k, hasKey k fs' = hasKey k l) ∧
    (∀ (l : JsonFields) (k : String) (v : Json),
       hasEntry k v l = true → isObj v = false →
       hasEntry k v (additional_properties_fields l) = true) ∧
    (∀ (l : JsonFields) (k : String) (v : Json),
       hasEntry k v l = true → isScalar v = true →
       hasEntry k v (replace_int_or_string_fields l) = true) ∧
    (∀ (l : JsonFields) (pfx version : String) (k : String) (v : Json),
       hasEntry k v l = true → isScalar v = true →
       (∀ s, v = .str s → k ≠ "$ref") →
       hasEntry k v (change_dict_values_fields l pfx version) = true) ∧
    (∀ (l : JsonFields) (data par gp key : Json) (fs' : JsonFields)
       (k : String) (v : Json),
       allow_null_optional_fields_fields l data par gp key = .ok fs' →
       hasEntry k v l = true → isScalar v = true →
       (∀ s, v = .str s → (k == "type" && (s == "array" || s == "string")) = false) →
       hasEntry k v fs' = true) :=
  ⟨additional_properties_argAfter_eq,
   fun l k => ⟨additional_properties_fields_hasKey l k,
     replace_int_or_string_fields_hasKey l k⟩,
   change_dict_values_fields_hasKey,
   allow_null_fields_hasKey,
   hasEntry_additional_properties_untargeted,
   hasEntry_replace_int_or_string_untargeted,
   hasEntry_change_dict_values_untargeted,
   fun l data par gp key fs' k v hok hmem hv hstr =>
     hasEntry_allow_null_untargeted l data par gp key fs' k v hok hmem hv hstr⟩

/-- C6 (witness): a scalar entry under a key the Reference Rewriter does
not target survives the pass verbatim. -/
theorem c6_witness :
    hasEntry "description" (Json.str "hello")
      (change_dict_values_fields
        (.ofList [("description", Json.str "hello"), ("$ref", Json.str "#/x")])
        "_definitions.json" "2.0") = true :=
  c6_passes_preserve_untargeted_and_strictness_mutates.2.2.2.2.2.2.1
    (.ofList [("description", Json.str "hello"), ("$ref", Json.str "#/x")])
    "_definitions.json" "2.0" "description" (Json.str "hello")
    (by decide) (by decide) (fun s _ => by decide)

/-- C7 (counterexample): a failure in step 2 — setting the `$schema`/`type`
defaults, here on a declared type whose schema node is a string, so that
`specification["$schema"] = ...` raises `TypeError` — happens *before* the
per-type `try` block and aborts the whole run: the error propagates and the
following declared type is never processed, contradicting "one failing type
never aborts the run". -/
theorem c7_counterexample :
    process_all ⟨"_definitions.json", "2.0", false, false, false⟩ (fun j => .ok j)
        [("a.v1.Kind", Json.str "oops"), ("b.v1.Kindb", Json.obj .nil)] =
      .error "TypeError" := by
  decide

/-- C7 (amended): for every declared type, any failure raised inside the
per-type `try` block — reference rewriting, the unsupported-kind check,
dereferencing (any behaviour of the `deref` oracle, including failure), the
per-type passes, and the file write — is caught at the per-type boundary
and processing continues with the next declared type, the failing type's
output file simply being absent; but the `$schema`/`type` default-setting
of step 2 runs *before* the `try` block, and a failure there aborts the
run.  Whenever every non-prefix-skipped title has three segments and (when
not skipped as group `api`) a mapping schema node, the run completes with
one outcome per declared type. -/
theorem c7_per_type_failures_caught (cfg : EmitCfg)
    (deref : Json → Except String Json) (types : List (String × Json))
    (h : ∀ p ∈ types, emit_ready p = true) :
    ∃ rs, process_all cfg deref types = .ok rs ∧ rs.length = types.length := by
  obtain ⟨h1, h2, _⟩ := processLoop_completes cfg deref types h
  refine ⟨(processLoop cfg deref types).1, ?_, h2⟩
  unfold process_all
  rcases hp : processLoop cfg deref types with ⟨rs, e⟩
  rw [hp] at h1
  simp only at h1
  subst h1
  simp [hp]

/-- C7 (witness): a run over two declared types where the first fails
inside the `try` block (an `UnsupportedError` kind in kubernetes +
stand-alone mode) still completes with an outcome for each type. -/
theorem c7_witness :
    ∃ rs, process_all ⟨"_definitions.json", "2.0", true, true, true⟩ (fun j => .ok j)
        [("x.v1.Jsonschemaprops", Json.obj .nil), ("core.v1.Pod", Json.obj .nil)] =
      .ok rs ∧ rs.length = 2 :=
  c7_per_type_failures_caught ⟨"_definitions.json", "2.0", true, true, true⟩
    (fun j => .ok j)
    [("x.v1.Jsonschemaprops", Json.obj .nil), ("core.v1.Pod", Json.obj .nil)]
    (by decide)

/-- C8 (confirmed): the Strictness Pass is idempotent. -/
theorem c8_strictness_idempotent (d : Json) :
    additional_properties (additional_properties d) = additional_properties d :=
  additional_properties_id_of_strict _ (additional_properties_strict d)

/-- C9 (counterexample): the claim requires *every* node with
`format: int-or-string` to be replaced.  The pass only replaces mappings
that occur as values of mapping entries: a root mapping with
`format: int-or-string` is returned unchanged (and is not the replacement
node), and so is such a mapping occurring as a sequence element. -/
theorem c9_counterexample :
    replace_int_or_string (.obj (.ofList [("format", Json.str "int-or-string")])) =
      .obj (.ofList [("format", Json.str "int-or-string")]) ∧
    (Json.obj (.ofList [("format", Json.str "int-or-string")])) ≠ intOrStringNode ∧
    replace_int_or_string
        (.obj (.ofList [("a", .arr (.ofList [Json.obj (.ofList [("format", Json.str "int-or-string")])]))])) =
      .obj (.ofList [("a", .arr (.ofList [Json.obj (.ofList [("format", Json.str "int-or-string")])]))]) := by
  refine ⟨by decide, by decide, by decide⟩

/-- C9 (amended): every mapping that occurs as the value of a mapping entry
and has `format: int-or-string` is replaced by exactly
`{"oneOf":[{"type":"string"},{"type":"integer"}]}`, and the replacement
node is emitted verbatim, not descended into; the root of the tree and
mappings occurring as sequence elements are not themselves replaced (only
their own entries are processed). -/
theorem c9_int_or_string_replacement (l : JsonFields) (k : String) (gs : JsonFields)
    (hmem : hasEntry k (.obj gs) l = true)
    (hfmt : lookupF "format" gs = some (.str "int-or-string")) :
    ∃ fs, replace_int_or_string (.obj l) = .obj fs ∧
      hasEntry k intOrStringNode fs = true := by
  refine ⟨replace_int_or_string_fields l, by simp [replace_int_or_string], ?_⟩
  have h := hasEntry_replace_int_or_string l k (.obj gs) hmem
  have hval : replace_int_or_string_value (.obj gs) = intOrStringNode := by
    simp [replace_int_or_string_value, hfmt]
  rwa [hval] at h

/-- C9 (witness for the amended theorem). -/
theorem c9_witness :
    ∃ fs, replace_int_or_string
        (.obj (.ofList [("x", Json.obj (.ofList [("format", Json.str "int-or-string"), ("junk", Json.num 3)]))])) = .obj fs ∧
      hasEntry "x" intOrStringNode fs = true :=
  c9_int_or_string_replacement
    (.ofList [("x", Json.obj (.ofList [("format", Json.str "int-or-string"), ("junk", Json.num 3)]))])
    "x" (.ofList [("format", Json.str "int-or-string"), ("junk", Json.num 3)])
    (by decide) (by decide)

/-- C10 (confirmed): the shared definitions file is written only when
`version < '3'`, but with `--stand-alone` the run unconditionally attempts
`os.remove` on it after writing `all.json`.  For a v3-style document
(version not lexically `< "3"`) run stand-alone, no per-type file collides
with `_definitions.json` (they all contain `-`), so the deletion targets a
file that was never created: the run ends with an uncaught
`FileNotFoundError` after the per-type files and `all.json` have been
written. -/
theorem c10_standalone_v3_crashes_after_write (cfg : EmitCfg)
    (deref : Json → Except String Json) (types : List (String × Json))
    (hsa : cfg.stand_alone = true)
    (hv : pyLt cfg.version "3" = false)
    (h : ∀ p ∈ types, emit_ready p = true) :
    run_files cfg deref types =
      (writtenFiles (processLoop cfg deref types).1 ++ ["all.json"],
       some "FileNotFoundError") := by
  obtain ⟨h1, h2, h3⟩ := processLoop_completes cfg deref types h
  obtain ⟨es, hes⟩ :=
    all_json_oneOf_v3_ok (types.map Prod.fst) cfg.pfx cfg.version cfg.stand_alone hv
  unfold run_files
  rcases hp : processLoop cfg deref types with ⟨rs, e⟩
  rw [hp] at h1 h3
  simp only at h1 h3
  subst h1
  have hnotin : "_definitions.json" ∉ writtenFiles rs ++ ["all.json"] := by
    intro hm
    rcases List.mem_append.mp hm with hm | hm
    · obtain ⟨g, v, k, hf⟩ := h3 _ hm
      exact output_filename_ne_definitions g v k hf.symm
    · revert hm
      decide
  rw [hsa] at hes
  simp [hv, hes, hsa, hnotin]

/-- C10 (witness). -/
theorem c10_witness :
    run_files ⟨"_definitions.json", "3.0.0", true, false, false⟩ (fun j => .ok j)
        [("a.v1.Kind", Json.obj .nil)] =
      (["kind-a-v1.json", "all.json"], some "FileNotFoundError") := by
  have h := c10_standalone_v3_crashes_after_write
    ⟨"_definitions.json", "3.0.0", true, false, false⟩ (fun j => .ok j)
    [("a.v1.Kind", Json.obj .nil)] rfl (by decide) (by decide)
  exact h.trans (by decide)
